import Mathlib

/-!
# Verification of `check_env_ymls_conda_present.py`

A shallow embedding of the CI gate script that checks that a container image
contains every package pinned in a conda-export manifest.  Python strings are
modelled as lists of code points (`List Nat`); the filesystem, the container
subprocess and the JSON parser are abstracted as explicit inputs to `pymain`.
-/

namespace CondaCheck

/-- A Python string, modelled as its list of code points. -/
abbrev PyStr := List Nat

/-- Bridge from Lean string literals to the code-point model. -/
def strLit (s : String) : PyStr := s.data.map Char.toNat

/-- The ASCII whitespace characters stripped by Python's `str.strip()`:
space, tab, newline, vertical tab, form feed, carriage return. -/
def isSpaceB (c : Nat) : Bool :=
  c == 32 || c == 9 || c == 10 || c == 11 || c == 12 || c == 13

/-- Python `str.strip()`: drop whitespace from both ends. -/
def pyStrip (s : PyStr) : PyStr :=
  (s.dropWhile isSpaceB).rdropWhile isSpaceB

/-- Python `str.lower()` on a single (ASCII) code point. -/
def lowerChar (c : Nat) : Nat := if 65 ≤ c ∧ c ≤ 90 then c + 32 else c

/-- Replacement of a single code point performed by `str.replace("_", "-")`:
`_` (95) becomes `-` (45). -/
def underChar (c : Nat) : Nat := if c = 95 then 45 else c

/-- Python `str.lower()`. -/
def pyLower (s : PyStr) : PyStr := s.map lowerChar

/-- Python `str.replace("_", "-")` (a single-character replacement, hence a map). -/
def pyReplaceUnderscore (s : PyStr) : PyStr := s.map underChar

/-- Python `normalize(name) = name.strip().lower().replace("_", "-")`. -/
def normalize (s : PyStr) : PyStr := pyReplaceUnderscore (pyLower (pyStrip s))

/-- The character-level transformation performed after stripping:
lowercase, then underscore-to-hyphen. -/
def normChar (c : Nat) : Nat := underChar (lowerChar c)

/-- The body of the parser's loop over lines: strip the raw line, skip blank
lines and `#` comments, take the part before the first `=`, strip it, skip
empty names, and add the normalized name to the set. -/
def parseStep (req : Finset PyStr) (raw : PyStr) : Finset PyStr :=
  let line := pyStrip raw
  if line = [] then req
  else if line.head? = some 35 then req
  else
    let name := pyStrip (line.takeWhile (fun c => !(c == 61)))
    if name = [] then req else insert (normalize name) req

/-- The function `parse_conda_export`: fold the loop body over the manifest's lines,
starting from the empty set. -/
def parse_conda_export (lines : List PyStr) : Finset PyStr :=
  lines.foldl parseStep ∅

/-- Per-line extraction rule as the spec words it: a non-blank line not
starting with `#` contributes the normalized, whitespace-stripped part before
the first `=`, unless that name is empty. -/
def specLineName (raw : PyStr) : Option PyStr :=
  let line := pyStrip raw
  if line = [] then none
  else if line.head? = some 35 then none
  else
    let name := pyStrip (line.takeWhile (fun c => !(c == 61)))
    if name = [] then none else some (normalize name)

/-- One record of `conda list --json` output: the two fields the script reads,
each possibly absent. -/
structure CondaRec where
  name : Option PyStr
  version : Option PyStr
deriving DecidableEq

/-- Python dict assignment `m[k] = v`: overwrite in place if the key exists,
otherwise append. -/
def dictInsert (m : List (PyStr × PyStr)) (k v : PyStr) : List (PyStr × PyStr) :=
  if m.any (fun kv => kv.1 = k) then m.map (fun kv => if kv.1 = k then (k, v) else kv)
  else m ++ [(k, v)]

/-- Python `k in m` for a dict. -/
def hasKey (m : List (PyStr × PyStr)) (k : PyStr) : Bool :=
  m.any (fun kv => kv.1 = k)

/-- Python `m[k]` for a dict, as an option. -/
def dictLookup (m : List (PyStr × PyStr)) (k : PyStr) : Option PyStr :=
  (m.find? (fun kv => kv.1 = k)).map Prod.snd

/-- The body of the loop over parsed records: skip records whose `name` is
absent or empty (falsy), otherwise store `version` (default `""`) under the
normalized name. -/
def buildStep (inst : List (PyStr × PyStr)) (r : CondaRec) : List (PyStr × PyStr) :=
  match r.name with
  | none => inst
  | some n => if n = [] then inst else dictInsert inst (normalize n) (r.version.getD [])

/-- Building the `{name: version}` map from the parsed JSON records. -/
def build_installed (data : List CondaRec) : List (PyStr × PyStr) :=
  data.foldl buildStep []

/-- Failures of the image inspector: the subprocess raising
`CalledProcessError` (carrying its captured transcript), or `json.loads`
failing on the captured output. -/
inductive InspectError where
  | toolError (transcript : PyStr)
  | jsonError (raw : PyStr)
deriving DecidableEq

/-- The function `docker_conda_list_json`, with the subprocess call and the JSON parser
abstracted as inputs.  Returns the propagated result together with the lines
printed to `stderr`. -/
def docker_conda_list_json (run : Except PyStr PyStr)
    (jsonParse : PyStr → Option (List CondaRec)) :
    Except InspectError (List (PyStr × PyStr)) × List PyStr :=
  match run with
  | Except.error transcript =>
      (Except.error (InspectError.toolError transcript),
        [strLit "ERROR: failed to run conda list inside container.", transcript])
  | Except.ok out =>
      match jsonParse out with
      | none => (Except.error (InspectError.jsonError out), [])
      | some data => (Except.ok (build_installed data), [])

/-- Python's `sorted` applied to a set of strings: the unique ascending
enumeration of the set (independent of the set's internal order). -/
def sortNames (s : Finset PyStr) : List PyStr :=
  Quot.liftOn s.val (fun l => l.insertionSort (· ≤ ·)) (fun l l' h =>
    List.eq_of_perm_of_sorted
      ((List.perm_insertionSort _ l).trans (h.trans (List.perm_insertionSort _ l').symm))
      (List.sorted_insertionSort _ l) (List.sorted_insertionSort _ l'))

/-- Python `ignore = set(normalize(x) for x in args.ignore)`. -/
def ignoreFinset (ignoreArgs : List PyStr) : Finset PyStr :=
  (ignoreArgs.map normalize).toFinset

/-- Python `required = set(p for p in required if p not in ignore)`. -/
def effectiveRequired (required : Finset PyStr) (ignoreArgs : List PyStr) : Finset PyStr :=
  required.filter (fun p => p ∉ ignoreFinset ignoreArgs)

/-- Python `missing = sorted([p for p in required if p not in installed])`. -/
def compute_missing (required : Finset PyStr) (installed : List (PyStr × PyStr)) : List PyStr :=
  sortNames (required.filter (fun p => ¬ hasKey installed p))

/-- Decimal rendering of a count, for the summary lines. -/
def natStr (n : Nat) : PyStr := strLit (toString n)

/-- The command-line arguments of the script. -/
structure Args where
  image : PyStr
  envName : PyStr
  pins : PyStr
  ignore : List PyStr

/-- The ambient world `main` interacts with: whether the pins file exists and
its lines, the outcome of the one `docker run` subprocess, and the JSON
parser applied to its captured output. -/
structure World where
  pinsExists : Bool
  pinsLines : List PyStr
  runResult : Except PyStr PyStr
  jsonParse : PyStr → Option (List CondaRec)

/-- How the process ends: `return <code>` from `main` (wrapped in
`SystemExit`), or an exception propagating out of `main`. -/
inductive MainOutcome where
  | exited (code : Nat)
  | raised (e : InspectError)
deriving DecidableEq

/-- Observable behaviour of one invocation. -/
structure MainRun where
  outcome : MainOutcome
  stdout : List PyStr
  stderr : List PyStr
  inspectorInvoked : Bool

/-- The summary block printed before the verdict (the final `print()` of an
empty line included). -/
def headerLines (a : Args) (required : Finset PyStr) (installed : List (PyStr × PyStr)) :
    List PyStr :=
  [strLit "Image: " ++ a.image,
   strLit "Env: " ++ a.envName,
   strLit "Pins file: " ++ a.pins,
   strLit "Required packages (from pins): " ++ natStr required.card,
   strLit "Installed packages (from image): " ++ natStr installed.length,
   []]

def okLine : PyStr :=
  strLit "OK: all packages in packages-python-pinned.yaml are present in the image."

def missingHeaderLine : PyStr :=
  strLit "MISSING packages (present in pins file, absent in image):"

def bulletLine (m : PyStr) : PyStr := strLit "  - " ++ m

def errPinsLine (pins : PyStr) : PyStr := strLit "ERROR: pins file not found: " ++ pins

/-- The effective required set `main` compares against the image. -/
def requiredOf (a : Args) (w : World) : Finset PyStr :=
  effectiveRequired (parse_conda_export w.pinsLines) a.ignore

/-- The `main` function: check the pins file, parse it, subtract the ignore
set, inspect the image, compute and report the missing list. -/
def pymain (a : Args) (w : World) : MainRun :=
  if w.pinsExists = false then
    { outcome := MainOutcome.exited 2, stdout := [],
      stderr := [errPinsLine a.pins], inspectorInvoked := false }
  else
    let required := requiredOf a w
    match docker_conda_list_json w.runResult w.jsonParse with
    | (Except.error e, errs) =>
        { outcome := MainOutcome.raised e, stdout := [], stderr := errs,
          inspectorInvoked := true }
    | (Except.ok installed, errs) =>
        let missing := compute_missing required installed
        if missing ≠ [] then
          { outcome := MainOutcome.exited 1,
            stdout := headerLines a required installed ++ [missingHeaderLine] ++
              missing.map bulletLine ++ [[]],
            stderr := errs, inspectorInvoked := true }
        else
          { outcome := MainOutcome.exited 0,
            stdout := headerLines a required installed ++ [okLine],
            stderr := errs, inspectorInvoked := true }

/-- Example argument vector used to instantiate the `main` theorems. -/
def exampleArgs : Args :=
  { image := strLit "img", envName := strLit "notebook",
    pins := strLit "packages-python-pinned.yaml", ignore := [] }

/-- A world in which the pins file does not exist. -/
def worldNoPins : World :=
  { pinsExists := false, pinsLines := [], runResult := Except.ok [],
    jsonParse := fun _ => none }

/-- A world in which the pins file exists (and is empty) and the inspection
succeeds with no packages. -/
def worldOk : World :=
  { pinsExists := true, pinsLines := [], runResult := Except.ok (strLit "[]"),
    jsonParse := fun _ => some [] }

/-! ## Lemmas about the string model -/

theorem dropWhile_map_comm {α : Type} (g : α → α) (p : α → Bool)
    (hg : ∀ a, p (g a) = p a) (l : List α) :
    (l.map g).dropWhile p = (l.dropWhile p).map g := by
  induction l with
  | nil => rfl
  | cons a l ih =>
    simp only [List.map_cons, List.dropWhile_cons, hg]
    cases h : p a with
    | true => simpa [h] using ih
    | false => simp [h]

theorem rdropWhile_map_comm (g : Nat → Nat) (p : Nat → Bool)
    (hg : ∀ a, p (g a) = p a) (l : List Nat) :
    (l.map g).rdropWhile p = (l.rdropWhile p).map g := by
  simp only [List.rdropWhile]
  rw [← List.map_reverse, dropWhile_map_comm g p hg, ← List.map_reverse]

theorem pyStrip_map_comm (g : Nat → Nat) (hg : ∀ c, isSpaceB (g c) = isSpaceB c)
    (s : PyStr) : pyStrip (s.map g) = (pyStrip s).map g := by
  unfold pyStrip
  rw [dropWhile_map_comm g _ hg, rdropWhile_map_comm g _ hg]

theorem dropWhile_rdropWhile_of_dropWhile_eq {α : Type} (p : α → Bool) (l : List α)
    (h : l.dropWhile p = l) : (l.rdropWhile p).dropWhile p = l.rdropWhile p := by
  obtain ⟨t, ht⟩ := List.rdropWhile_prefix p l
  cases hr : l.rdropWhile p with
  | nil => rfl
  | cons a m =>
    rw [hr] at ht
    have hl : l = a :: (m ++ t) := by rw [← ht]; simp
    have ha : p a = false := by
      by_contra hpa
      rw [Bool.not_eq_false] at hpa
      rw [hl, List.dropWhile_cons, hpa, if_pos rfl] at h
      have hle := (List.dropWhile_sublist (p := p) (l := m ++ t)).length_le
      rw [h] at hle
      simp only [List.length_cons] at hle
      omega
    rw [List.dropWhile_cons, ha]
    simp

theorem pyStrip_idem (s : PyStr) : pyStrip (pyStrip s) = pyStrip s := by
  unfold pyStrip
  rw [dropWhile_rdropWhile_of_dropWhile_eq isSpaceB _ (List.dropWhile_idempotent _ _),
    List.rdropWhile_idempotent]

theorem isSpaceB_of_large (c : Nat) (h : 33 ≤ c) : isSpaceB c = false := by
  simp only [isSpaceB, Bool.or_eq_false_iff, beq_eq_false_iff_ne, ne_eq]
  omega

theorem normChar_space (c : Nat) : isSpaceB (normChar c) = isSpaceB c := by
  unfold normChar lowerChar underChar
  split_ifs with h1 h2 h3
  · exact absurd h2 (by omega)
  · rw [isSpaceB_of_large (c + 32) (by omega), isSpaceB_of_large c (by omega)]
  · subst h3
    rfl
  · rfl

theorem normChar_idem (c : Nat) : normChar (normChar c) = normChar c := by
  unfold normChar lowerChar underChar
  split_ifs <;> omega

theorem normalize_eq_map (s : PyStr) : normalize s = (pyStrip s).map normChar := by
  unfold normalize pyReplaceUnderscore pyLower normChar
  rw [List.map_map]
  rfl

theorem normalize_idem (s : PyStr) : normalize (normalize s) = normalize s := by
  rw [normalize_eq_map, normalize_eq_map, pyStrip_map_comm normChar normChar_space,
    pyStrip_idem, List.map_map]
  exact List.map_congr_left fun a _ => normChar_idem a

/-! ## Lemmas about the parser -/

theorem parseStep_eq (req : Finset PyStr) (raw : PyStr) :
    parseStep req raw = match specLineName raw with
      | none => req
      | some n => insert n req := by
  unfold parseStep specLineName
  dsimp only
  split_ifs <;> rfl

theorem mem_foldl_parseStep (lines : List PyStr) (acc : Finset PyStr) (a : PyStr) :
    a ∈ lines.foldl parseStep acc ↔
      a ∈ acc ∨ ∃ raw ∈ lines, specLineName raw = some a := by
  induction lines generalizing acc with
  | nil => simp
  | cons x xs ih =>
    rw [List.foldl_cons, ih, parseStep_eq]
    cases h : specLineName x with
    | none => simp [h]
    | some n =>
      simp only [Finset.mem_insert, List.mem_cons]
      constructor
      · rintro ((rfl | ha) | ⟨raw, hr, hs⟩)
        · exact Or.inr ⟨x, Or.inl rfl, h⟩
        · exact Or.inl ha
        · exact Or.inr ⟨raw, Or.inr hr, hs⟩
      · rintro (ha | ⟨raw, rfl | hr, hs⟩)
        · exact Or.inl (Or.inr ha)
        · rw [h] at hs
          exact Or.inl (Or.inl (Option.some.inj hs).symm)
        · exact Or.inr ⟨raw, hr, hs⟩

theorem mem_parse_conda_export (lines : List PyStr) (a : PyStr) :
    a ∈ parse_conda_export lines ↔ ∃ raw ∈ lines, specLineName raw = some a := by
  rw [parse_conda_export, mem_foldl_parseStep]
  simp

theorem specLineName_eq_some (raw p : PyStr) (h : specLineName raw = some p) :
    ∃ n, p = normalize n := by
  unfold specLineName at h
  dsimp only at h
  split_ifs at h
  exact ⟨_, (Option.some.inj h).symm⟩

/-! ## Lemmas about sorting -/

theorem sortNames_sorted (s : Finset PyStr) : (sortNames s).Sorted (· ≤ ·) := by
  rcases s with ⟨val, nd⟩
  revert nd
  refine Quotient.inductionOn val ?_
  intro l nd
  exact List.sorted_insertionSort _ l

theorem mem_sortNames {s : Finset PyStr} {a : PyStr} : a ∈ sortNames s ↔ a ∈ s := by
  rcases s with ⟨val, nd⟩
  revert nd
  refine Quotient.inductionOn val ?_
  intro l nd
  rw [show sortNames ⟨⟦l⟧, nd⟩ = l.insertionSort (· ≤ ·) from rfl]
  rw [(List.perm_insertionSort _ l).mem_iff]
  simp [Finset.mem_mk]

theorem sortNames_nodup (s : Finset PyStr) : (sortNames s).Nodup := by
  rcases s with ⟨val, nd⟩
  revert nd
  refine Quotient.inductionOn val ?_
  intro l nd
  rw [show sortNames ⟨⟦l⟧, nd⟩ = l.insertionSort (· ≤ ·) from rfl]
  exact (List.perm_insertionSort _ l).nodup_iff.mpr (Multiset.coe_nodup.mp nd)

theorem sortNames_sorted_lt (s : Finset PyStr) : (sortNames s).Sorted (· < ·) :=
  (sortNames_sorted s).lt_of_le (sortNames_nodup s)

/-! ## Lemmas about the installed map -/

theorem mem_dictInsert_keys (m : List (PyStr × PyStr)) (k v x y : PyStr)
    (h : (x, y) ∈ dictInsert m k v) : x = k ∨ ∃ y', (x, y') ∈ m := by
  unfold dictInsert at h
  split_ifs at h with hk
  · rw [List.mem_map] at h
    obtain ⟨kv, hkv, heq⟩ := h
    by_cases hd : kv.1 = k
    · rw [if_pos hd] at heq
      exact Or.inl (congrArg Prod.fst heq).symm
    · rw [if_neg hd] at heq
      exact Or.inr ⟨y, heq ▸ hkv⟩
  · rw [List.mem_append, List.mem_singleton] at h
    rcases h with h | h
    · exact Or.inr ⟨y, h⟩
    · exact Or.inl (congrArg Prod.fst h)

theorem buildStep_keys (inst : List (PyStr × PyStr)) (r : CondaRec) (x y : PyStr)
    (h : (x, y) ∈ buildStep inst r) : (∃ n, x = normalize n) ∨ ∃ y', (x, y') ∈ inst := by
  rcases r with ⟨name, version⟩
  cases name with
  | none => exact Or.inr ⟨y, h⟩
  | some n =>
    rw [buildStep] at h
    dsimp only at h
    split_ifs at h with hn
    · exact Or.inr ⟨y, h⟩
    · rcases mem_dictInsert_keys _ _ _ _ _ h with h | h
      · exact Or.inl ⟨n, h⟩
      · exact Or.inr h

theorem foldl_buildStep_keys (data : List CondaRec) :
    ∀ acc : List (PyStr × PyStr), (∀ a b, (a, b) ∈ acc → normalize a = a) →
      ∀ x y, (x, y) ∈ data.foldl buildStep acc → normalize x = x := by
  induction data with
  | nil =>
    intro acc hacc x y h
    exact hacc x y h
  | cons r rs ih =>
    intro acc hacc x y h
    refine ih (buildStep acc r) ?_ x y h
    intro a b hab
    rcases buildStep_keys acc r a b hab with ⟨n, rfl⟩ | ⟨b', hb⟩
    · exact normalize_idem n
    · exact hacc a b' hb

theorem build_installed_keys (data : List CondaRec) (x y : PyStr)
    (h : (x, y) ∈ build_installed data) : normalize x = x :=
  foldl_buildStep_keys data [] (by simp) x y h

theorem buildStep_skip (inst : List (PyStr × PyStr)) (r : CondaRec)
    (h : r.name = none ∨ r.name = some []) : buildStep inst r = inst := by
  rcases r with ⟨name, version⟩
  rcases h with h | h <;> simp only at h <;> subst h <;> rfl

theorem find?_overwrite (m : List (PyStr × PyStr)) (k v : PyStr)
    (h : m.any (fun kv => kv.1 = k) = true) :
    (m.map (fun kv => if kv.1 = k then (k, v) else kv)).find? (fun kv => kv.1 = k) =
      some (k, v) := by
  induction m with
  | nil => simp at h
  | cons a m ih =>
    by_cases hk : a.1 = k
    · rw [List.map_cons, if_pos hk]
      exact List.find?_cons_of_pos _ (by simp)
    · rw [List.map_cons, if_neg hk]
      rw [List.find?_cons_of_neg _ (by simpa using hk)]
      apply ih
      simp only [List.any_cons, Bool.or_eq_true, decide_eq_true_eq] at h
      rcases h with h | h
      · exact absurd h hk
      · simpa using h

theorem dictLookup_dictInsert (m : List (PyStr × PyStr)) (k v : PyStr) :
    dictLookup (dictInsert m k v) k = some v := by
  unfold dictLookup dictInsert
  split_ifs with h
  · rw [find?_overwrite m k v h]
    rfl
  · rw [List.find?_append]
    have hm : m.find? (fun kv => kv.1 = k) = none := by
      rw [List.find?_eq_none]
      intro kv hkv
      simp only [Bool.not_eq_true, decide_eq_false_iff_not]
      intro hc
      exact h (List.any_eq_true.mpr ⟨kv, hkv, by simpa using hc⟩)
    rw [hm]
    simp [List.find?]

/-! ## Claim theorems -/

/-- C9: normalization is idempotent: `normalize(normalize(x)) == normalize(x)`
for every string `x`. -/
theorem C9_normalize_idempotent (x : PyStr) : normalize (normalize x) = normalize x :=
  normalize_idem x

/-- C7 (counterexample): the claim that `normalize` returns exactly the name
lowercased with underscores replaced by hyphens fails on the name `" a"`:
`normalize` also strips surrounding whitespace, so `normalize(" a") = "a"` while
lowering and replacing alone keep the leading space. -/
theorem C7_counterexample :
    ¬ normalize (strLit " a") = pyReplaceUnderscore (pyLower (strLit " a")) := by
  decide

/-- C7 (amended): for every package name, `normalize` returns the name with
surrounding whitespace stripped, then lowercased, with every underscore replaced
by a hyphen, so that case and underscore/hyphen variants map to the same key;
in particular `normalize("Foo_Bar") == normalize("foo-bar")`. -/
theorem C7_normalize_shape :
    (∀ s : PyStr, normalize s = pyReplaceUnderscore (pyLower (pyStrip s))) ∧
      normalize (strLit "Foo_Bar") = normalize (strLit "foo-bar") :=
  ⟨fun _ => rfl, by decide⟩

/-- C5: the parser yields exactly the set of normalized left parts of the
non-blank, non-`#` lines, split on the first `=`, whitespace-stripped, empty
names skipped; in particular the lines
`["# comment", "", "a=1.0=0", "b=2.0", "c"]` yield the set `{"a", "b", "c"}`. -/
theorem C5_parser_characterization :
    (∀ lines : List PyStr,
        parse_conda_export lines = (lines.filterMap specLineName).toFinset) ∧
      parse_conda_export
          [strLit "# comment", strLit "", strLit "a=1.0=0", strLit "b=2.0", strLit "c"] =
        {strLit "a", strLit "b", strLit "c"} := by
  constructor
  · intro lines
    ext a
    rw [mem_parse_conda_export]
    simp [List.mem_filterMap]
  · decide

/-- C2: for every required set, ignore set and installed map, the missing
list is sorted strictly ascending and contains exactly the names of
`required − ignore` that are not keys of the installed map; in particular
`required = {"a","b","c"}`, `installed = {"a": "1.0", "c": "3.0"}` and empty
ignore yield `missing == ["b"]`. -/
theorem C2_missing_characterization :
    (∀ (required : Finset PyStr) (ignoreArgs : List PyStr)
        (installed : List (PyStr × PyStr)),
        (compute_missing (effectiveRequired required ignoreArgs) installed).Sorted (· < ·) ∧
        ∀ p : PyStr,
          p ∈ compute_missing (effectiveRequired required ignoreArgs) installed ↔
            p ∈ required ∧ p ∉ ignoreFinset ignoreArgs ∧ hasKey installed p = false) ∧
      compute_missing (effectiveRequired {strLit "a", strLit "b", strLit "c"} [])
          [(strLit "a", strLit "1.0"), (strLit "c", strLit "3.0")] = [strLit "b"] := by
  constructor
  · intro required ignoreArgs installed
    refine ⟨sortNames_sorted_lt _, fun p => ?_⟩
    rw [compute_missing, mem_sortNames, Finset.mem_filter, effectiveRequired,
      Finset.mem_filter]
    simp [Bool.not_eq_true, and_assoc]
  · decide

/-- C6: ignore filtering is case-insensitive: each ignore entry is
normalized before the subtraction, so subtracting raw entries equals
subtracting their normalizations; in particular `required = {"a","b","c"}` with
`ignore = {"B"}` yields effective required `{"a","c"}`. -/
theorem C6_ignore_case_insensitive :
    (∀ (required : Finset PyStr) (ignoreArgs : List PyStr),
        effectiveRequired required ignoreArgs =
          effectiveRequired required (ignoreArgs.map normalize)) ∧
      effectiveRequired {strLit "a", strLit "b", strLit "c"} [strLit "B"] =
        {strLit "a", strLit "c"} := by
  constructor
  · intro required ignoreArgs
    unfold effectiveRequired ignoreFinset
    rw [List.map_map,
      show ignoreArgs.map (normalize ∘ normalize) = ignoreArgs.map normalize from
        List.map_congr_left fun a _ => normalize_idem a]
  · decide

/-- C8: normalization is applied uniformly before any set operation: every
name the parser puts into the required set, every element of the effective
ignore set, and every key of the installed map is a fixed point of
`normalize`. -/
theorem C8_uniform_normalization :
    (∀ (lines : List PyStr) (p : PyStr), p ∈ parse_conda_export lines →
        normalize p = p) ∧
    (∀ (ignoreArgs : List PyStr) (p : PyStr), p ∈ ignoreFinset ignoreArgs →
        normalize p = p) ∧
    (∀ (data : List CondaRec) (k v : PyStr), (k, v) ∈ build_installed data →
        normalize k = k) := by
  refine ⟨?_, ?_, ?_⟩
  · intro lines p hp
    rw [mem_parse_conda_export] at hp
    obtain ⟨raw, _, hs⟩ := hp
    obtain ⟨n, rfl⟩ := specLineName_eq_some raw p hs
    exact normalize_idem n
  · intro ignoreArgs p hp
    rw [ignoreFinset, List.mem_toFinset, List.mem_map] at hp
    obtain ⟨x, _, rfl⟩ := hp
    exact normalize_idem x
  · intro data k v hk
    exact build_installed_keys data k v hk

/-- C8 (witness): the three parts of the claim instantiated at concrete
inputs. -/
theorem C8_witness :
    (strLit "a" ∈ parse_conda_export [strLit "a"] ∧
      normalize (strLit "a") = strLit "a") ∧
    (strLit "b" ∈ ignoreFinset [strLit "B"] ∧
      normalize (strLit "b") = strLit "b") ∧
    ((strLit "c", strLit "1") ∈
        build_installed [⟨some (strLit "c"), some (strLit "1")⟩] ∧
      normalize (strLit "c") = strLit "c") :=
  ⟨⟨by decide, C8_uniform_normalization.1 [strLit "a"] (strLit "a") (by decide)⟩,
   ⟨by decide, C8_uniform_normalization.2.1 [strLit "B"] (strLit "b") (by decide)⟩,
   ⟨by decide, C8_uniform_normalization.2.2 [⟨some (strLit "c"), some (strLit "1")⟩]
      (strLit "c") (strLit "1") (by decide)⟩⟩

/-- C10: a record whose `name` field is absent or empty is silently skipped
(it contributes nothing to the installed map and causes no error), and a record
with a name but no `version` field is stored with the empty-string version. -/
theorem C10_record_handling :
    (∀ (pre post : List CondaRec) (r : CondaRec),
        r.name = none ∨ r.name = some [] →
        build_installed (pre ++ r :: post) = build_installed (pre ++ post)) ∧
    (∀ (inst : List (PyStr × PyStr)) (n : PyStr), n ≠ [] →
        buildStep inst ⟨some n, none⟩ = dictInsert inst (normalize n) [] ∧
        dictLookup (dictInsert inst (normalize n) []) (normalize n) = some []) := by
  constructor
  · intro pre post r h
    unfold build_installed
    rw [List.foldl_append, List.foldl_append, List.foldl_cons, buildStep_skip _ r h]
  · intro inst n hn
    constructor
    · rw [buildStep]
      dsimp only
      rw [if_neg hn]
      rfl
    · exact dictLookup_dictInsert inst (normalize n) []

/-- C10 (witness): the two parts of the claim instantiated at concrete
records. -/
theorem C10_witness :
    (((⟨none, none⟩ : CondaRec).name = none ∨
        (⟨none, none⟩ : CondaRec).name = some []) ∧
      build_installed ([⟨some (strLit "x"), some (strLit "1")⟩] ++
          (⟨none, none⟩ : CondaRec) :: []) =
        build_installed ([⟨some (strLit "x"), some (strLit "1")⟩] ++ [])) ∧
    (strLit "y" ≠ ([] : PyStr)) ∧
    (buildStep [] ⟨some (strLit "y"), none⟩ = dictInsert [] (normalize (strLit "y")) [] ∧
      dictLookup (dictInsert [] (normalize (strLit "y")) []) (normalize (strLit "y")) =
        some []) :=
  ⟨⟨Or.inl rfl,
    C10_record_handling.1 [⟨some (strLit "x"), some (strLit "1")⟩] [] ⟨none, none⟩
      (Or.inl rfl)⟩,
   by decide,
   C10_record_handling.2 [] (strLit "y") (by decide)⟩

/-- C4 (counterexample): the claim that the captured transcript is printed to
diagnostic output for every inspector failure fails for a parse failure: when
the subprocess succeeds but its output is not parseable, the `except` clause
(which only catches the subprocess error) never runs, so nothing is printed —
the captured output `"not json"` is not on `stderr`, even though the call does
fail. -/
theorem C4_counterexample :
    (docker_conda_list_json (Except.ok (strLit "not json")) (fun _ => none)).1 =
      Except.error (InspectError.jsonError (strLit "not json")) ∧
    strLit "not json" ∉
      (docker_conda_list_json (Except.ok (strLit "not json")) (fun _ => none)).2 :=
  ⟨rfl, by decide⟩

/-- C4 (amended): every inspector failure — the subprocess exiting non-zero or
its output being non-parseable — is fatal: the result is an error (never a
partial installed map), and in the subprocess-failure case the captured
transcript is printed to diagnostic output (a parse failure propagates without
echoing the transcript). -/
theorem C4_inspector_failure (run : Except PyStr PyStr)
    (jsonParse : PyStr → Option (List CondaRec))
    (h : (∃ t, run = Except.error t) ∨
      ∃ out, run = Except.ok out ∧ jsonParse out = none) :
    (∃ e, (docker_conda_list_json run jsonParse).1 = Except.error e) ∧
    (∀ m, (docker_conda_list_json run jsonParse).1 ≠ Except.ok m) ∧
    (∀ t, run = Except.error t → t ∈ (docker_conda_list_json run jsonParse).2) := by
  rcases h with ⟨t, rfl⟩ | ⟨out, rfl, hp⟩
  · refine ⟨⟨InspectError.toolError t, rfl⟩, ?_, ?_⟩
    · intro m hm
      exact Except.noConfusion hm
    · intro t' ht'
      obtain rfl : t = t' := Except.error.inj ht'
      simp [docker_conda_list_json]
  · refine ⟨⟨InspectError.jsonError out, ?_⟩, ?_, ?_⟩
    · simp [docker_conda_list_json, hp]
    · intro m hm
      simp [docker_conda_list_json, hp] at hm
    · intro t ht
      exact Except.noConfusion ht

/-- C4 (witness): the failure guarantee instantiated at a concrete failing
subprocess. -/
theorem C4_witness :
    ((∃ t, (Except.error (strLit "boom") : Except PyStr PyStr) = Except.error t) ∨
      ∃ out, (Except.error (strLit "boom") : Except PyStr PyStr) = Except.ok out ∧
        (fun _ : PyStr => (none : Option (List CondaRec))) out = none) ∧
    (∃ e, (docker_conda_list_json (Except.error (strLit "boom"))
        (fun _ => none)).1 = Except.error e) ∧
    (∀ m, (docker_conda_list_json (Except.error (strLit "boom"))
        (fun _ => none)).1 ≠ Except.ok m) ∧
    (∀ t, (Except.error (strLit "boom") : Except PyStr PyStr) = Except.error t →
      t ∈ (docker_conda_list_json (Except.error (strLit "boom")) (fun _ => none)).2) :=
  ⟨Or.inl ⟨strLit "boom", rfl⟩,
   C4_inspector_failure (Except.error (strLit "boom")) (fun _ => none)
     (Or.inl ⟨strLit "boom", rfl⟩)⟩

/-- C1: whenever the pins file does not exist, `main` returns exit code 2,
prints the error line to `stderr`, and never invokes the image inspector. -/
theorem C1_pins_file_absent (a : Args) (w : World) (h : w.pinsExists = false) :
    (pymain a w).outcome = MainOutcome.exited 2 ∧
    errPinsLine a.pins ∈ (pymain a w).stderr ∧
    (pymain a w).inspectorInvoked = false := by
  unfold pymain
  rw [h]
  simp

/-- C1 (witness): concrete run with a missing pins file. -/
theorem C1_witness :
    worldNoPins.pinsExists = false ∧
    (pymain exampleArgs worldNoPins).outcome = MainOutcome.exited 2 ∧
    errPinsLine exampleArgs.pins ∈ (pymain exampleArgs worldNoPins).stderr ∧
    (pymain exampleArgs worldNoPins).inspectorInvoked = false :=
  ⟨rfl, C1_pins_file_absent exampleArgs worldNoPins rfl⟩

/-- C3: when the pins file exists and the inspection succeeds, `main` exits
0 iff the missing list is empty (printing the OK line) and exits 1 iff it is
non-empty (printing the bullet list of missing names). -/
theorem C3_success_exit_codes (a : Args) (w : World)
    (installed : List (PyStr × PyStr)) (errs : List PyStr)
    (hpins : w.pinsExists = true)
    (hok : docker_conda_list_json w.runResult w.jsonParse = (Except.ok installed, errs)) :
    ((pymain a w).outcome = MainOutcome.exited 0 ↔
        compute_missing (requiredOf a w) installed = []) ∧
    ((pymain a w).outcome = MainOutcome.exited 1 ↔
        compute_missing (requiredOf a w) installed ≠ []) ∧
    (compute_missing (requiredOf a w) installed = [] →
        okLine ∈ (pymain a w).stdout) ∧
    (compute_missing (requiredOf a w) installed ≠ [] →
        missingHeaderLine ∈ (pymain a w).stdout ∧
        ∀ m ∈ compute_missing (requiredOf a w) installed,
          bulletLine m ∈ (pymain a w).stdout) := by
  have hpy : pymain a w =
      if compute_missing (requiredOf a w) installed ≠ [] then
        { outcome := MainOutcome.exited 1,
          stdout := headerLines a (requiredOf a w) installed ++ [missingHeaderLine] ++
            (compute_missing (requiredOf a w) installed).map bulletLine ++ [[]],
          stderr := errs, inspectorInvoked := true }
      else
        { outcome := MainOutcome.exited 0,
          stdout := headerLines a (requiredOf a w) installed ++ [okLine],
          stderr := errs, inspectorInvoked := true } := by
    unfold pymain
    rw [hpins, hok]
    rfl
  by_cases hm : compute_missing (requiredOf a w) installed = []
  · rw [hpy, if_neg (not_not_intro hm)]
    refine ⟨by simp [hm], by simp [hm], fun _ => ?_, fun hc => absurd hm hc⟩
    simp
  · rw [hpy, if_pos hm]
    refine ⟨by simp [hm], by simp [hm], fun hc => absurd hc hm, fun _ => ⟨?_, ?_⟩⟩
    · simp
    · intro m hmem
      simp only [List.mem_append]
      exact Or.inl (Or.inr (List.mem_map_of_mem bulletLine hmem))

/-- C3 (witness): concrete successful run with an empty manifest. -/
theorem C3_witness :
    (worldOk.pinsExists = true ∧
      docker_conda_list_json worldOk.runResult worldOk.jsonParse = (Except.ok [], [])) ∧
    ((pymain exampleArgs worldOk).outcome = MainOutcome.exited 0 ↔
        compute_missing (requiredOf exampleArgs worldOk) [] = []) ∧
    ((pymain exampleArgs worldOk).outcome = MainOutcome.exited 1 ↔
        compute_missing (requiredOf exampleArgs worldOk) [] ≠ []) ∧
    (compute_missing (requiredOf exampleArgs worldOk) [] = [] →
        okLine ∈ (pymain exampleArgs worldOk).stdout) ∧
    (compute_missing (requiredOf exampleArgs worldOk) [] ≠ [] →
        missingHeaderLine ∈ (pymain exampleArgs worldOk).stdout ∧
        ∀ m ∈ compute_missing (requiredOf exampleArgs worldOk) [],
          bulletLine m ∈ (pymain exampleArgs worldOk).stdout) :=
  ⟨⟨rfl, rfl⟩, C3_success_exit_codes exampleArgs worldOk [] [] rfl rfl⟩

end CondaCheck
